import Mathlib

/-!
Shallow embedding of the Apriori frequent-itemset miner and association-rule
generator of `system.py`, and proofs of the specification's claims about them.

Modelling conventions:
* An item is any element of a linearly ordered type `α` with decidable
  equality (the source uses strings, which only need equality and ordering;
  witnesses instantiate `α := ℕ`).
* A basket is a `Finset α` (the source's `set`); the basket collection is a
  `List (Finset α)` (the source's list of sets, order and multiplicity kept).
* An itemset is a `Finset α` (the source's `frozenset`).
* Support values are exact rationals `ℚ`; the source computes `cnt /
  total_baskets` with floats, which we model with exact division.  Division by
  zero yields `0` in `ℚ`; along the reachable executions of the source the
  denominator is never zero when a division is actually performed (the `count`
  dictionary is empty when `baskets` is empty).
* The `support_data` dictionary is modelled by its key set.  Both counting
  loops of the source (lines 22-26 and 60-70) store exactly
  `supportCount baskets s / baskets.length` as the value of a key `s`, so the
  value component is recovered by the function `support` below; theorems about
  stored values are stated through it.
* The `while current_L` loop is modelled by the fuel-indexed recursion
  `loopGo`, which returns `none` when the fuel is exhausted while the current
  level is still non-empty; termination theorems show a concrete fuel bound
  always suffices.
-/

namespace Apriori

/-- The set of all items occurring in some basket: the domain over which the
source's level-1 `count` dictionary (lines 22-25) acquires keys. -/
def allItems {α : Type} [DecidableEq α] (baskets : List (Finset α)) : Finset α :=
  baskets.foldr (fun b acc => b ∪ acc) ∅

/-- Number of baskets containing the itemset `s`; this is the value the
source's counting loops compute for `s` (lines 22-25 for singletons, where
each basket containing the item contributes one increment, and lines 60-64
for larger candidates, where `candidate.issubset(basket)` guards the
increment). -/
def supportCount {α : Type} [DecidableEq α] (baskets : List (Finset α)) (s : Finset α) : ℕ :=
  baskets.countP fun b => decide (s ⊆ b)

/-- Support of an itemset: `cnt / total_baskets` (source lines 26 and 67). -/
def support {α : Type} [DecidableEq α] (baskets : List (Finset α)) (s : Finset α) : ℚ :=
  (supportCount baskets s : ℚ) / (baskets.length : ℚ)

/-- Level-1 frequent itemsets `L1` (source line 26): singletons of items that
occur in some basket, kept when their support reaches `minSup`. -/
def L1 {α : Type} [DecidableEq α] (baskets : List (Finset α)) (minSup : ℚ) :
    Finset (Finset α) :=
  ((allItems baskets).image fun i => ({i} : Finset α)).filter
    fun s => minSup ≤ support baskets s

/-- First `k - 2` elements of the sorted item list of an itemset: the source's
`l1[:k-2]` after `l1.sort()` (lines 38-41). -/
def joinPrefix {α : Type} [LinearOrder α] (k : ℕ) (s : Finset α) : List α :=
  (s.sort (· ≤ ·)).take (k - 2)

/-- Join step (source lines 36-44): all unions of two distinct previous-level
itemsets whose sorted forms agree on the first `k - 2` elements, kept when the
union has exactly `k` elements; collected as a set. -/
def joinCandidates {α : Type} [DecidableEq α] [LinearOrder α] (k : ℕ)
    (prev : Finset (Finset α)) : Finset (Finset α) :=
  ((prev ×ˢ prev).filter fun p =>
      p.1 ≠ p.2 ∧ joinPrefix k p.1 = joinPrefix k p.2 ∧ (p.1 ∪ p.2).card = k).image
    fun p => p.1 ∪ p.2

/-- Prune step (source lines 47-57): keep a candidate only when each of its
`(k-1)`-element subsets belongs to the previous frequent level. -/
def pruneStep {α : Type} [DecidableEq α] (k : ℕ) (prev cands : Finset (Finset α)) :
    Finset (Finset α) :=
  cands.filter fun c => ∀ t ∈ c.powersetCard (k - 1), t ∈ prev

/-- One iteration of the while loop (source lines 32-70): join, prune, count,
and keep the candidates that were counted at least once (only those acquire a
key in `candidate_count`) and whose support reaches `minSup`. -/
def levelStep {α : Type} [DecidableEq α] [LinearOrder α] (baskets : List (Finset α))
    (minSup : ℚ) (k : ℕ) (prev : Finset (Finset α)) : Finset (Finset α) :=
  (pruneStep k prev (joinCandidates k prev)).filter
    fun c => 0 < supportCount baskets c ∧ minSup ≤ support baskets c

/-- The frequent level of size `k`: level 1 is `L1`, and each later level is
obtained from the previous one by `levelStep`. -/
def level {α : Type} [DecidableEq α] [LinearOrder α] (baskets : List (Finset α))
    (minSup : ℚ) : ℕ → Finset (Finset α)
  | 0 => ∅
  | 1 => L1 baskets minSup
  | (k + 2) => levelStep baskets minSup (k + 2) (level baskets minSup (k + 1))

/-- The candidates of size `k` that reach the support-counting phase: for
`k = 1`, every singleton of an occurring item (the keys of the level-1 `count`
dictionary); for `k ≥ 2`, the joined and pruned candidates built from the
previous frequent level.  This is the "reachable by the level-wise
construction" predicate of the specification. -/
def preCand {α : Type} [DecidableEq α] [LinearOrder α] (baskets : List (Finset α))
    (minSup : ℚ) : ℕ → Finset (Finset α)
  | 0 => ∅
  | 1 => (allItems baskets).image fun i => ({i} : Finset α)
  | (k + 2) =>
    pruneStep (k + 2) (level baskets minSup (k + 1))
      (joinCandidates (k + 2) (level baskets minSup (k + 1)))

/-- Key set of the accumulated `support_data` dictionary returned by
`get_frequent_itemsets`: the union of all frequent levels.  Levels beyond the
number of distinct items are empty (proved below), so the union over
`[1, |allItems|]` captures every level the loop ever produces. -/
def supportTable {α : Type} [DecidableEq α] [LinearOrder α] (baskets : List (Finset α))
    (minSup : ℚ) : Finset (Finset α) :=
  (Finset.Icc 1 (allItems baskets).card).biUnion (level baskets minSup)

/-- Fuel-indexed model of the `while current_L` loop (source lines 31-72).
State: the current size `k`, the previous frequent level `currentL`, and the
accumulated key set `acc` of `support_data`.  Returns `none` when the fuel is
exhausted while the loop guard still holds. -/
def loopGo {α : Type} [DecidableEq α] [LinearOrder α] (baskets : List (Finset α))
    (minSup : ℚ) : ℕ → ℕ → Finset (Finset α) → Finset (Finset α) →
    Option (Finset (Finset α))
  | 0, _, currentL, acc => if currentL = ∅ then some acc else none
  | (fuel + 1), k, currentL, acc =>
    if currentL = ∅ then some acc
    else
      loopGo baskets minSup fuel (k + 1) (levelStep baskets minSup k currentL)
        (acc ∪ levelStep baskets minSup k currentL)

/-- The miner `get_frequent_itemsets` (source lines 16-74): seed with `L1`,
run the loop from `k = 2`.  The fuel `|allItems| + 1` is an upper bound on the
number of iterations, proved sufficient below (`none` is never returned). -/
def get_frequent_itemsets {α : Type} [DecidableEq α] [LinearOrder α]
    (baskets : List (Finset α)) (minSup : ℚ) : Option (Finset (Finset α)) :=
  loopGo baskets minSup ((allItems baskets).card + 1) 2 (L1 baskets minSup)
    (L1 baskets minSup)

/-- The rule generator `generate_rules` (source lines 76-87), over a table
given as its key set `keys` and value function `val`: for every key of size at
least 2 and every element `rhs` of it, with `lhs` the key minus `rhs`, emit
`(lhs, {rhs}, val itemset, val itemset / val lhs)` when `lhs` is itself a key
and the confidence reaches `minConf`; a missing `lhs` is skipped silently.
The source accumulates a list; distinct `(itemset, rhs)` choices yield
distinct tuples, so the collection is modelled as a `Finset`. -/
def generate_rules {α : Type} [DecidableEq α] (keys : Finset (Finset α))
    (val : Finset α → ℚ) (minConf : ℚ) : Finset (Finset α × Finset α × ℚ × ℚ) :=
  (keys.filter fun s => 2 ≤ s.card).biUnion fun itemset =>
    (itemset.filter fun rhs =>
        itemset.erase rhs ∈ keys ∧ minConf ≤ val itemset / val (itemset.erase rhs)).image
      fun rhs =>
        (itemset.erase rhs, {rhs}, val itemset, val itemset / val (itemset.erase rhs))

section Lemmas

variable {α : Type} [DecidableEq α]

lemma mem_allItems {baskets : List (Finset α)} {i : α} :
    i ∈ allItems baskets ↔ ∃ b ∈ baskets, i ∈ b := by
  induction baskets with
  | nil => simp [allItems]
  | cons b bs ih => simp [allItems, List.foldr] at ih ⊢; rw [ih]

lemma supportCount_le_length (baskets : List (Finset α)) (s : Finset α) :
    supportCount baskets s ≤ baskets.length :=
  List.countP_le_length _

lemma supportCount_pos_iff {baskets : List (Finset α)} {s : Finset α} :
    0 < supportCount baskets s ↔ ∃ b ∈ baskets, s ⊆ b := by
  simp [supportCount, List.countP_pos_iff]

lemma support_nonneg (baskets : List (Finset α)) (s : Finset α) :
    0 ≤ support baskets s := by
  unfold support
  positivity

lemma support_le_one (baskets : List (Finset α)) (s : Finset α) :
    support baskets s ≤ 1 := by
  unfold support
  rcases Nat.eq_zero_or_pos baskets.length with h | h
  · simp [h]
  · rw [div_le_one (by exact_mod_cast h)]
    exact_mod_cast supportCount_le_length baskets s

lemma supportCount_mono {baskets : List (Finset α)} {s t : Finset α} (hst : s ⊆ t) :
    supportCount baskets t ≤ supportCount baskets s := by
  unfold supportCount
  refine List.countP_mono_left fun b _ hb => ?_
  simp only [decide_eq_true_eq] at hb ⊢
  exact hst.trans hb

lemma support_mono {baskets : List (Finset α)} {s t : Finset α} (hst : s ⊆ t) :
    support baskets t ≤ support baskets s := by
  unfold support
  exact div_le_div_of_nonneg_right (by exact_mod_cast supportCount_mono hst)
    (by positivity)

lemma allItems_perm {baskets baskets' : List (Finset α)} (h : baskets.Perm baskets') :
    allItems baskets = allItems baskets' := by
  ext i
  simp only [mem_allItems]
  constructor
  · rintro ⟨b, hb, hib⟩
    exact ⟨b, h.mem_iff.mp hb, hib⟩
  · rintro ⟨b, hb, hib⟩
    exact ⟨b, h.mem_iff.mpr hb, hib⟩

lemma supportCount_perm {baskets baskets' : List (Finset α)} (h : baskets.Perm baskets')
    (s : Finset α) : supportCount baskets s = supportCount baskets' s :=
  h.countP_eq _

lemma mem_generate_rules {keys : Finset (Finset α)} {val : Finset α → ℚ} {minConf : ℚ}
    {r : Finset α × Finset α × ℚ × ℚ} :
    r ∈ generate_rules keys val minConf ↔
      ∃ itemset, itemset ∈ keys ∧ 2 ≤ itemset.card ∧ ∃ rhs, rhs ∈ itemset ∧
        itemset.erase rhs ∈ keys ∧ minConf ≤ val itemset / val (itemset.erase rhs) ∧
        r = (itemset.erase rhs, {rhs}, val itemset,
          val itemset / val (itemset.erase rhs)) := by
  unfold generate_rules
  simp only [Finset.mem_biUnion, Finset.mem_filter, Finset.mem_image]
  constructor
  · rintro ⟨itemset, ⟨hkeys, hcard⟩, rhs, ⟨hrhs, hlhs, hconf⟩, rfl⟩
    exact ⟨itemset, hkeys, hcard, rhs, hrhs, hlhs, hconf, rfl⟩
  · rintro ⟨itemset, hkeys, hcard, rhs, hrhs, hlhs, hconf, rfl⟩
    exact ⟨itemset, ⟨hkeys, hcard⟩, rhs, ⟨hrhs, hlhs, hconf⟩, rfl⟩

lemma support_perm {baskets baskets' : List (Finset α)} (h : baskets.Perm baskets')
    (s : Finset α) : support baskets s = support baskets' s := by
  unfold support
  rw [supportCount_perm h, h.length_eq]

lemma L1_perm {baskets baskets' : List (Finset α)} (h : baskets.Perm baskets')
    (minSup : ℚ) : L1 baskets minSup = L1 baskets' minSup := by
  unfold L1
  rw [allItems_perm h]
  exact Finset.filter_congr fun s _ => by rw [support_perm h]

lemma mem_L1 {baskets : List (Finset α)} {minSup : ℚ} {s : Finset α} :
    s ∈ L1 baskets minSup ↔
      (∃ i ∈ allItems baskets, s = {i}) ∧ minSup ≤ support baskets s := by
  unfold L1
  simp only [Finset.mem_filter, Finset.mem_image]
  constructor
  · rintro ⟨⟨i, hi, rfl⟩, hsup⟩
    exact ⟨⟨i, hi, rfl⟩, hsup⟩
  · rintro ⟨⟨i, hi, rfl⟩, hsup⟩
    exact ⟨⟨i, hi, rfl⟩, hsup⟩

end Lemmas

section LevelLemmas

variable {α : Type} [DecidableEq α] [LinearOrder α]

lemma mem_joinCandidates {k : ℕ} {prev : Finset (Finset α)} {c : Finset α} :
    c ∈ joinCandidates k prev ↔
      ∃ a b, a ∈ prev ∧ b ∈ prev ∧ a ≠ b ∧ joinPrefix k a = joinPrefix k b ∧
        (a ∪ b).card = k ∧ c = a ∪ b := by
  unfold joinCandidates
  simp only [Finset.mem_image, Finset.mem_filter, Finset.mem_product, Prod.exists]
  constructor
  · rintro ⟨a, b, ⟨⟨ha, hb⟩, hne, hpre, hcard⟩, rfl⟩
    exact ⟨a, b, ha, hb, hne, hpre, hcard, rfl⟩
  · rintro ⟨a, b, ha, hb, hne, hpre, hcard, rfl⟩
    exact ⟨a, b, ⟨⟨ha, hb⟩, hne, hpre, hcard⟩, rfl⟩

lemma mem_levelStep {baskets : List (Finset α)} {minSup : ℚ} {k : ℕ}
    {prev : Finset (Finset α)} {c : Finset α} :
    c ∈ levelStep baskets minSup k prev ↔
      c ∈ joinCandidates k prev ∧ (∀ t ∈ c.powersetCard (k - 1), t ∈ prev) ∧
        0 < supportCount baskets c ∧ minSup ≤ support baskets c := by
  unfold levelStep pruneStep
  simp only [Finset.mem_filter]
  tauto

lemma level_one {baskets : List (Finset α)} {minSup : ℚ} :
    level baskets minSup 1 = L1 baskets minSup := rfl

lemma level_add_two {baskets : List (Finset α)} {minSup : ℚ} {k : ℕ} :
    level baskets minSup (k + 2) =
      levelStep baskets minSup (k + 2) (level baskets minSup (k + 1)) := rfl

lemma level_card {baskets : List (Finset α)} {minSup : ℚ} :
    ∀ {k : ℕ} {s : Finset α}, s ∈ level baskets minSup k → s.card = k := by
  intro k s hs
  match k with
  | 0 => simp [level] at hs
  | 1 =>
    rw [level_one, mem_L1] at hs
    obtain ⟨⟨i, _, rfl⟩, _⟩ := hs
    simp
  | (k + 2) =>
    rw [level_add_two, mem_levelStep, mem_joinCandidates] at hs
    obtain ⟨⟨a, b, _, _, _, _, hcard, rfl⟩, _⟩ := hs
    exact hcard

lemma level_subset_allItems {baskets : List (Finset α)} {minSup : ℚ} :
    ∀ (k : ℕ) {s : Finset α}, s ∈ level baskets minSup k → s ⊆ allItems baskets := by
  intro k
  induction k using Nat.strong_induction_on with
  | _ k ih =>
    match k with
    | 0 => intro s hs; simp [level] at hs
    | 1 =>
      intro s hs
      rw [level_one, mem_L1] at hs
      obtain ⟨⟨i, hi, rfl⟩, _⟩ := hs
      simpa using hi
    | (k + 2) =>
      intro s hs
      rw [level_add_two, mem_levelStep, mem_joinCandidates] at hs
      obtain ⟨⟨a, b, ha, hb, _, _, _, rfl⟩, _⟩ := hs
      exact Finset.union_subset (ih (k + 1) (by omega) ha) (ih (k + 1) (by omega) hb)

lemma level_freq {baskets : List (Finset α)} {minSup : ℚ} :
    ∀ {k : ℕ} {s : Finset α}, s ∈ level baskets minSup k →
      minSup ≤ support baskets s := by
  intro k s hs
  match k with
  | 0 => simp [level] at hs
  | 1 => exact (mem_L1.mp hs).2
  | (k + 2) => exact (mem_levelStep.mp hs).2.2.2

lemma level_count_pos {baskets : List (Finset α)} {minSup : ℚ} :
    ∀ {k : ℕ} {s : Finset α}, s ∈ level baskets minSup k →
      0 < supportCount baskets s := by
  intro k s hs
  match k with
  | 0 => simp [level] at hs
  | 1 =>
    rw [level_one, mem_L1] at hs
    obtain ⟨⟨i, hi, rfl⟩, _⟩ := hs
    obtain ⟨b, hb, hib⟩ := mem_allItems.mp hi
    exact supportCount_pos_iff.mpr ⟨b, hb, Finset.singleton_subset_iff.mpr hib⟩
  | (k + 2) => exact (mem_levelStep.mp hs).2.2.1

lemma L1_eq_filter {baskets : List (Finset α)} {minSup : ℚ} :
    L1 baskets minSup = (preCand baskets minSup 1).filter
      (fun c => 0 < supportCount baskets c ∧ minSup ≤ support baskets c) := by
  ext s
  simp only [mem_L1, preCand, Finset.mem_filter, Finset.mem_image]
  constructor
  · rintro ⟨⟨i, hi, rfl⟩, hsup⟩
    obtain ⟨b, hb, hib⟩ := mem_allItems.mp hi
    exact ⟨⟨i, hi, rfl⟩,
      supportCount_pos_iff.mpr ⟨b, hb, Finset.singleton_subset_iff.mpr hib⟩, hsup⟩
  · rintro ⟨⟨i, hi, rfl⟩, _, hsup⟩
    exact ⟨⟨i, hi, rfl⟩, hsup⟩

lemma level_eq_filter {baskets : List (Finset α)} {minSup : ℚ} :
    ∀ {k : ℕ}, 1 ≤ k → level baskets minSup k = (preCand baskets minSup k).filter
      (fun c => 0 < supportCount baskets c ∧ minSup ≤ support baskets c) := by
  intro k hk
  match k with
  | 1 => exact L1_eq_filter
  | (k + 2) => rfl

lemma preCand_card {baskets : List (Finset α)} {minSup : ℚ} :
    ∀ {k : ℕ} {s : Finset α}, s ∈ preCand baskets minSup k → s.card = k := by
  intro k s hs
  match k with
  | 0 => simp [preCand] at hs
  | 1 =>
    simp only [preCand, Finset.mem_image] at hs
    obtain ⟨i, _, rfl⟩ := hs
    simp
  | (k + 2) =>
    unfold preCand pruneStep at hs
    rw [Finset.mem_filter, mem_joinCandidates] at hs
    obtain ⟨⟨a, b, _, _, _, _, hcard, rfl⟩, _⟩ := hs
    exact hcard

lemma mem_supportTable {baskets : List (Finset α)} {minSup : ℚ} {s : Finset α} :
    s ∈ supportTable baskets minSup ↔ s ∈ level baskets minSup s.card := by
  unfold supportTable
  rw [Finset.mem_biUnion]
  constructor
  · rintro ⟨k, _, hs⟩
    rw [level_card hs]
    exact hs
  · intro hs
    refine ⟨s.card, Finset.mem_Icc.mpr ⟨?_, ?_⟩, hs⟩
    · rcases Nat.eq_zero_or_pos s.card with h | h
      · rw [h] at hs; simp [level] at hs
      · exact h
    · exact Finset.card_le_card (level_subset_allItems s.card hs)

lemma level_empty_succ {baskets : List (Finset α)} {minSup : ℚ} {k : ℕ}
    (hk : 1 ≤ k) (h : level baskets minSup k = ∅) :
    level baskets minSup (k + 1) = ∅ := by
  obtain ⟨m, rfl⟩ := Nat.exists_eq_add_of_le hk
  rw [Nat.add_comm 1 m, level_add_two, Nat.add_comm m 1] at *
  rw [h]
  unfold levelStep pruneStep joinCandidates
  simp

lemma level_empty_of_big {baskets : List (Finset α)} {minSup : ℚ} {k : ℕ}
    (hk : (allItems baskets).card < k) : level baskets minSup k = ∅ := by
  by_contra h
  obtain ⟨s, hs⟩ := Finset.nonempty_iff_ne_empty.mpr h
  have h1 := level_card hs
  have h2 := Finset.card_le_card (level_subset_allItems k hs)
  omega

end LevelLemmas

section LoopLemmas

variable {α : Type} [DecidableEq α] [LinearOrder α]

lemma level_empty_mono {baskets : List (Finset α)} {minSup : ℚ} {k j : ℕ}
    (hk : 1 ≤ k) (h : level baskets minSup k = ∅) (hkj : k ≤ j) :
    level baskets minSup j = ∅ := by
  induction j, hkj using Nat.le_induction with
  | base => exact h
  | succ j hj ih => exact level_empty_succ (by omega) ih

lemma partial_union_level {baskets : List (Finset α)} {minSup : ℚ} {k : ℕ} :
    (Finset.Icc 1 k).biUnion (level baskets minSup) ∪ level baskets minSup (k + 1) =
      (Finset.Icc 1 (k + 1)).biUnion (level baskets minSup) := by
  ext s
  simp only [Finset.mem_union, Finset.mem_biUnion, Finset.mem_Icc]
  constructor
  · rintro (⟨j, ⟨h1, h2⟩, hs⟩ | hs)
    · exact ⟨j, ⟨h1, by omega⟩, hs⟩
    · exact ⟨k + 1, ⟨by omega, le_refl _⟩, hs⟩
  · rintro ⟨j, ⟨h1, h2⟩, hs⟩
    rcases Nat.lt_or_ge j (k + 1) with h | h
    · exact Or.inl ⟨j, ⟨h1, by omega⟩, hs⟩
    · have hj : j = k + 1 := by omega
      subst hj
      exact Or.inr hs

lemma partial_eq_table_of_level_empty {baskets : List (Finset α)} {minSup : ℚ}
    {k : ℕ} (hk : 1 ≤ k) (h : level baskets minSup k = ∅) :
    (Finset.Icc 1 k).biUnion (level baskets minSup) = supportTable baskets minSup := by
  ext s
  simp only [supportTable, Finset.mem_biUnion, Finset.mem_Icc]
  constructor
  · rintro ⟨j, ⟨h1, _⟩, hs⟩
    refine ⟨j, ⟨h1, ?_⟩, hs⟩
    rw [← level_card hs]
    exact Finset.card_le_card (level_subset_allItems j hs)
  · rintro ⟨j, ⟨h1, _⟩, hs⟩
    refine ⟨j, ⟨h1, ?_⟩, hs⟩
    by_contra hjk
    push_neg at hjk
    rw [level_empty_mono hk h (le_of_lt hjk)] at hs
    simp at hs

lemma loopGo_eq (baskets : List (Finset α)) (minSup : ℚ) :
    ∀ (fuel k : ℕ), 2 ≤ k → (allItems baskets).card + 2 ≤ k + fuel →
      loopGo baskets minSup fuel k (level baskets minSup (k - 1))
          ((Finset.Icc 1 (k - 1)).biUnion (level baskets minSup)) =
        some (supportTable baskets minSup) := by
  intro fuel
  induction fuel with
  | zero =>
    intro k hk hbound
    have hcur : level baskets minSup (k - 1) = ∅ := by
      by_contra h
      obtain ⟨s, hs⟩ := Finset.nonempty_iff_ne_empty.mpr h
      have h1 := level_card hs
      have h2 := Finset.card_le_card (level_subset_allItems (k - 1) hs)
      omega
    unfold loopGo
    rw [if_pos hcur]
    exact congrArg some (partial_eq_table_of_level_empty (by omega) hcur)
  | succ fuel ih =>
    intro k hk hbound
    unfold loopGo
    by_cases hcur : level baskets minSup (k - 1) = ∅
    · rw [if_pos hcur]
      exact congrArg some (partial_eq_table_of_level_empty (by omega) hcur)
    · rw [if_neg hcur]
      have hstep : levelStep baskets minSup k (level baskets minSup (k - 1)) =
          level baskets minSup k := by
        obtain ⟨m, rfl⟩ : ∃ m, k = m + 2 := ⟨k - 2, by omega⟩
        rw [level_add_two]
        congr 1
      rw [hstep]
      have hacc : (Finset.Icc 1 (k - 1)).biUnion (level baskets minSup) ∪
          level baskets minSup k = (Finset.Icc 1 k).biUnion (level baskets minSup) := by
        obtain ⟨m, rfl⟩ : ∃ m, k = m + 1 := ⟨k - 1, by omega⟩
        simpa using partial_union_level
      rw [hacc]
      have := ih (k + 1) (by omega) (by omega)
      rwa [Nat.add_sub_cancel] at this

lemma get_frequent_itemsets_eq (baskets : List (Finset α)) (minSup : ℚ) :
    get_frequent_itemsets baskets minSup = some (supportTable baskets minSup) := by
  have h := loopGo_eq baskets minSup ((allItems baskets).card + 1) 2 (by omega) (by omega)
  have h1 : (2 : ℕ) - 1 = 1 := rfl
  rw [h1] at h
  have h2 : (Finset.Icc 1 1).biUnion (level baskets minSup) = level baskets minSup 1 := by
    rw [Finset.Icc_self, Finset.singleton_biUnion]
  rw [h2, level_one] at h
  exact h

end LoopLemmas

section TableLemmas

variable {α : Type} [DecidableEq α] [LinearOrder α]

lemma supportTable_nil (minSup : ℚ) :
    supportTable ([] : List (Finset α)) minSup = ∅ := by
  unfold supportTable
  rw [show allItems ([] : List (Finset α)) = ∅ from rfl]
  simp

lemma supportTable_empty_of_one_lt {baskets : List (Finset α)} {minSup : ℚ}
    (h : 1 < minSup) : supportTable baskets minSup = ∅ := by
  ext s
  simp only [Finset.not_mem_empty, iff_false]
  intro hs
  have h1 := level_freq (mem_supportTable.mp hs)
  have h2 := support_le_one baskets s
  linarith

lemma supportTable_one_empty_iff {baskets : List (Finset α)} :
    supportTable baskets (1 : ℚ) = ∅ ↔
      ∀ i ∈ allItems baskets, ∃ b ∈ baskets, i ∉ b := by
  constructor
  · intro h
    by_contra hc
    push_neg at hc
    obtain ⟨i, hi, hall⟩ := hc
    obtain ⟨b0, hb0, _⟩ := mem_allItems.mp hi
    have hlen : 0 < baskets.length := List.length_pos.mpr (by rintro rfl; simp at hb0)
    have hcnt : supportCount baskets {i} = baskets.length := by
      unfold supportCount
      refine List.countP_eq_length.mpr fun b hb => ?_
      simp only [decide_eq_true_eq, Finset.singleton_subset_iff]
      exact hall b hb
    have hmem : ({i} : Finset α) ∈ supportTable baskets 1 := by
      rw [mem_supportTable, Finset.card_singleton, level_one, mem_L1]
      refine ⟨⟨i, hi, rfl⟩, ?_⟩
      unfold support
      rw [hcnt, div_self (by exact_mod_cast hlen.ne')]
    rw [h] at hmem
    simp at hmem
  · intro hall
    ext s
    simp only [Finset.not_mem_empty, iff_false]
    intro hs
    have hs' := mem_supportTable.mp hs
    have hcard : 1 ≤ s.card := by
      rcases Nat.eq_zero_or_pos s.card with h0 | h0
      · rw [h0] at hs'; simp [level] at hs'
      · exact h0
    obtain ⟨i, hi⟩ := Finset.card_pos.mp hcard
    have hiall : i ∈ allItems baskets := level_subset_allItems s.card hs' hi
    obtain ⟨b, hb, hib⟩ := hall i hiall
    have hlen : 0 < baskets.length := List.length_pos.mpr (by rintro rfl; simp at hb)
    have hfreq : (1 : ℚ) ≤ support baskets s := level_freq hs'
    have hmono : support baskets s ≤ support baskets {i} :=
      support_mono (Finset.singleton_subset_iff.mpr hi)
    have hlt : support baskets {i} < 1 := by
      have hne : supportCount baskets {i} ≠ baskets.length := by
        intro he
        have := List.countP_eq_length.mp he b hb
        simp only [decide_eq_true_eq, Finset.singleton_subset_iff] at this
        exact hib this
      have hle := supportCount_le_length baskets ({i} : Finset α)
      unfold support
      rw [div_lt_one (by exact_mod_cast hlen)]
      exact_mod_cast lt_of_le_of_ne hle hne
    linarith

lemma levelStep_perm {baskets baskets' : List (Finset α)} (h : baskets.Perm baskets')
    (minSup : ℚ) (k : ℕ) (prev : Finset (Finset α)) :
    levelStep baskets minSup k prev = levelStep baskets' minSup k prev := by
  unfold levelStep
  exact Finset.filter_congr fun s _ => by rw [supportCount_perm h, support_perm h]

lemma level_perm {baskets baskets' : List (Finset α)} (h : baskets.Perm baskets')
    (minSup : ℚ) : ∀ k, level baskets minSup k = level baskets' minSup k := by
  intro k
  induction k using Nat.strong_induction_on with
  | _ k ih =>
    match k with
    | 0 => rfl
    | 1 => exact L1_perm h minSup
    | (k + 2) =>
      rw [level_add_two, level_add_two, ih (k + 1) (by omega), levelStep_perm h]

lemma supportTable_perm {baskets baskets' : List (Finset α)} (h : baskets.Perm baskets')
    (minSup : ℚ) : supportTable baskets minSup = supportTable baskets' minSup := by
  unfold supportTable
  rw [allItems_perm h]
  exact Finset.biUnion_congr rfl fun k _ => level_perm h minSup k

lemma level_subsets_closed {baskets : List (Finset α)} {minSup : ℚ} :
    ∀ (k : ℕ), ∀ s ∈ level baskets minSup k, ∀ t, t ⊂ s → t.Nonempty →
      t ∈ level baskets minSup t.card := by
  intro k
  induction k using Nat.strong_induction_on with
  | _ k ih =>
    match k with
    | 0 => intro s hs; simp [level] at hs
    | 1 =>
      intro s hs t hts htne
      have hcard : s.card = 1 := level_card hs
      have h1 := Finset.card_lt_card hts
      have h2 := Finset.card_pos.mpr htne
      omega
    | (m + 2) =>
      intro s hs t hts htne
      have hscard : s.card = m + 2 := level_card hs
      rw [level_add_two] at hs
      have hprune := (mem_levelStep.mp hs).2.1
      have htcard : t.card ≤ m + 1 := by
        have := Finset.card_lt_card hts
        omega
      have hsub : t ⊆ s := hts.subset
      rcases Nat.lt_or_ge t.card (m + 1) with hlt | hge
      · have hn1 : t.card ≤ m + 1 := by omega
        have hn2 : m + 1 ≤ s.card := by omega
        obtain ⟨u, htu, hus, hucard'⟩ :=
          Finset.exists_subsuperset_card_eq hsub hn1 hn2
        have hu : u ∈ level baskets minSup (m + 1) :=
          hprune u (Finset.mem_powersetCard.mpr ⟨hus, hucard'⟩)
        have htu' : t ⊂ u := by
          refine Finset.ssubset_iff_subset_ne.mpr ⟨htu, ?_⟩
          intro he
          rw [he] at hlt
          omega
        exact ih (m + 1) (by omega) u hu t htu' htne
      · have htc : t.card = m + 1 := by omega
        have hu : t ∈ level baskets minSup (m + 1) :=
          hprune t (Finset.mem_powersetCard.mpr ⟨hsub, htc⟩)
        rw [htc]
        exact hu

end TableLemmas

/-- Concrete basket collection used by the witness theorems: the literal
scenario of the specification with items A, B, C encoded as 1, 2, 3. -/
def demoBaskets : List (Finset ℕ) := [{1, 2}, {1, 2, 3}, {1}, {2, 3}, {1, 2, 3}]

section DemoLemmas

lemma demo_support_eq {s : Finset ℕ} {n : ℕ} (h : supportCount demoBaskets s = n) :
    support demoBaskets s = (n : ℚ) / 5 := by
  unfold support
  rw [h, show demoBaskets.length = 5 from rfl]
  norm_num

lemma demo_mem_level1 {i : ℕ} (hi : i ∈ allItems demoBaskets)
    (hsup : (3 : ℚ) / 5 ≤ support demoBaskets {i}) :
    ({i} : Finset ℕ) ∈ level demoBaskets (3 / 5) 1 := by
  rw [level_one, mem_L1]
  exact ⟨⟨i, hi, rfl⟩, hsup⟩

lemma demo_mem1 : ({1} : Finset ℕ) ∈ level demoBaskets (3 / 5) 1 :=
  demo_mem_level1 (by decide)
    (by rw [demo_support_eq (show supportCount demoBaskets {1} = 4 by decide)]; norm_num)

lemma demo_mem2 : ({2} : Finset ℕ) ∈ level demoBaskets (3 / 5) 1 :=
  demo_mem_level1 (by decide)
    (by rw [demo_support_eq (show supportCount demoBaskets {2} = 4 by decide)]; norm_num)

lemma demo_mem_level2 {a b : ℕ} (hab : a ≠ b)
    (ha : ({a} : Finset ℕ) ∈ level demoBaskets (3 / 5) 1)
    (hb : ({b} : Finset ℕ) ∈ level demoBaskets (3 / 5) 1)
    (hcnt : 0 < supportCount demoBaskets {a, b})
    (hsup : (3 : ℚ) / 5 ≤ support demoBaskets {a, b}) :
    ({a, b} : Finset ℕ) ∈ level demoBaskets (3 / 5) 2 := by
  have h2 : ({a, b} : Finset ℕ) ∈ level demoBaskets (3 / 5) (0 + 2) := by
    rw [level_add_two, mem_levelStep]
    refine ⟨?_, ?_, hcnt, hsup⟩
    · rw [mem_joinCandidates]
      refine ⟨{a}, {b}, ha, hb, by simp [hab], rfl, ?_, ?_⟩
      · rw [← Finset.insert_eq, Finset.card_insert_of_not_mem (by simp [hab]),
          Finset.card_singleton]
      · exact Finset.insert_eq a {b}
    · intro t ht
      rw [Finset.mem_powersetCard] at ht
      obtain ⟨hsub, hcard⟩ := ht
      obtain ⟨x, rfl⟩ := Finset.card_eq_one.mp hcard
      have hx : x ∈ ({a, b} : Finset ℕ) := hsub (Finset.mem_singleton_self x)
      rcases Finset.mem_insert.mp hx with rfl | hxb
      · exact ha
      · rw [Finset.mem_singleton.mp hxb]
        exact hb
  exact h2

lemma demo_mem12 : ({1, 2} : Finset ℕ) ∈ level demoBaskets (3 / 5) 2 :=
  demo_mem_level2 (by decide) demo_mem1 demo_mem2 (by decide)
    (by rw [demo_support_eq (show supportCount demoBaskets {1, 2} = 3 by decide)]; norm_num)

lemma demo_tmem1 : ({1} : Finset ℕ) ∈ supportTable demoBaskets (3 / 5) := by
  rw [mem_supportTable]
  exact demo_mem1

lemma demo_tmem12 : ({1, 2} : Finset ℕ) ∈ supportTable demoBaskets (3 / 5) := by
  rw [mem_supportTable]
  exact demo_mem12

end DemoLemmas

/-- C1: for every non-empty basket list and minSupport in (0,1], the Support
Table returned by the miner contains an itemset iff it is frequent (its
support reaches minSupport) and it is reachable by the level-wise
construction (it is among the counted candidates of its own size), and the
recorded support of every entry equals the number of baskets that are
supersets of it divided by the total basket count. -/
theorem spec_C1 {α : Type} [DecidableEq α] [LinearOrder α]
    (baskets : List (Finset α)) (minSup : ℚ) (hne : baskets ≠ [])
    (h0 : 0 < minSup) (h1 : minSup ≤ 1) :
    (∀ s : Finset α, s ∈ supportTable baskets minSup ↔
      minSup ≤ support baskets s ∧ s ∈ preCand baskets minSup s.card) ∧
    ∀ s ∈ supportTable baskets minSup, support baskets s =
      ((baskets.filter fun b => decide (s ⊆ b)).length : ℚ) / (baskets.length : ℚ) := by
  constructor
  · intro s
    rw [mem_supportTable]
    constructor
    · intro hs
      have hcard : 1 ≤ s.card := by
        rcases Nat.eq_zero_or_pos s.card with h | h
        · rw [h] at hs; simp [level] at hs
        · exact h
      refine ⟨level_freq hs, ?_⟩
      rw [level_eq_filter hcard] at hs
      exact (Finset.mem_filter.mp hs).1
    · rintro ⟨hfreq, hpre⟩
      have hcard : 1 ≤ s.card := by
        rcases Nat.eq_zero_or_pos s.card with h | h
        · rw [h] at hpre; simp [preCand] at hpre
        · exact h
      have hsup : (0 : ℚ) < support baskets s := lt_of_lt_of_le h0 hfreq
      have hcnt : 0 < supportCount baskets s := by
        rcases Nat.eq_zero_or_pos (supportCount baskets s) with hc | hc
        · exfalso
          unfold support at hsup
          rw [hc] at hsup
          simp at hsup
        · exact hc
      rw [level_eq_filter hcard]
      exact Finset.mem_filter.mpr ⟨hpre, hcnt, hfreq⟩
  · intro s _
    unfold support supportCount
    rw [List.countP_eq_length_filter]

/-- Witness for C1 at the specification's literal scenario. -/
theorem spec_C1_witness :
    (demoBaskets ≠ [] ∧ (0 : ℚ) < 3 / 5 ∧ (3 : ℚ) / 5 ≤ 1) ∧
    (({1, 2} : Finset ℕ) ∈ supportTable demoBaskets (3 / 5) ↔
      (3 : ℚ) / 5 ≤ support demoBaskets {1, 2} ∧
        ({1, 2} : Finset ℕ) ∈ preCand demoBaskets (3 / 5) ({1, 2} : Finset ℕ).card) :=
  ⟨⟨by decide, by norm_num, by norm_num⟩,
    (spec_C1 demoBaskets (3 / 5) (by decide) (by norm_num) (by norm_num)).1 {1, 2}⟩

/-- C2: downward closure: for minSupport in (0,1], every itemset in the
Support Table has each of its non-empty proper subsets also in the table, and
those subsets are frequent. -/
theorem spec_C2 {α : Type} [DecidableEq α] [LinearOrder α]
    (baskets : List (Finset α)) (minSup : ℚ) (h0 : 0 < minSup) (h1 : minSup ≤ 1) :
    ∀ s ∈ supportTable baskets minSup, ∀ t, t ⊂ s → t.Nonempty →
      t ∈ supportTable baskets minSup ∧ minSup ≤ support baskets t := by
  intro s hs t hts htne
  have h := level_subsets_closed s.card s (mem_supportTable.mp hs) t hts htne
  exact ⟨mem_supportTable.mpr h, level_freq h⟩

/-- Witness for C2: `{1}` is a non-empty proper subset of the table entry
`{1, 2}` in the literal scenario. -/
theorem spec_C2_witness :
    ((0 : ℚ) < 3 / 5 ∧ (3 : ℚ) / 5 ≤ 1 ∧
      ({1, 2} : Finset ℕ) ∈ supportTable demoBaskets (3 / 5) ∧
      ({1} : Finset ℕ) ⊂ {1, 2} ∧ ({1} : Finset ℕ).Nonempty) ∧
    ({1} : Finset ℕ) ∈ supportTable demoBaskets (3 / 5) ∧
      (3 : ℚ) / 5 ≤ support demoBaskets {1} :=
  ⟨⟨by norm_num, by norm_num, demo_tmem12, by decide, by decide⟩,
    @spec_C2 ℕ instDecidableEqNat Nat.instLinearOrder demoBaskets (3 / 5)
      (by norm_num) (by norm_num) {1, 2} demo_tmem12 {1} (by decide) (by decide)⟩

/-- C3: anti-monotonicity: whenever both a proper subset A and its superset B
have entries in the Support Table, support(A) ≥ support(B). -/
theorem spec_C3 {α : Type} [DecidableEq α] [LinearOrder α]
    (baskets : List (Finset α)) (minSup : ℚ) (A B : Finset α)
    (hA : A ∈ supportTable baskets minSup) (hB : B ∈ supportTable baskets minSup)
    (hAB : A ⊂ B) : support baskets B ≤ support baskets A :=
  support_mono hAB.subset

/-- Witness for C3 with A = `{1}`, B = `{1, 2}` in the literal scenario. -/
theorem spec_C3_witness :
    (({1} : Finset ℕ) ∈ supportTable demoBaskets (3 / 5) ∧
      ({1, 2} : Finset ℕ) ∈ supportTable demoBaskets (3 / 5) ∧
      ({1} : Finset ℕ) ⊂ {1, 2}) ∧
    support demoBaskets {1, 2} ≤ support demoBaskets {1} :=
  ⟨⟨demo_tmem1, demo_tmem12, by decide⟩,
    @spec_C3 ℕ instDecidableEqNat Nat.instLinearOrder demoBaskets (3 / 5) {1} {1, 2}
      demo_tmem1 demo_tmem12 (by decide)⟩

/-- C4: termination: for every non-empty basket list and minSupport in (0,1],
the level of size `|allItems| + 1` is empty (a level eventually produces no
frequent itemsets), and the fuelled while loop of the miner returns the
accumulated Support Table rather than running out of fuel. -/
theorem spec_C4 {α : Type} [DecidableEq α] [LinearOrder α]
    (baskets : List (Finset α)) (minSup : ℚ) (hne : baskets ≠ [])
    (h0 : 0 < minSup) (h1 : minSup ≤ 1) :
    level baskets minSup ((allItems baskets).card + 1) = ∅ ∧
    get_frequent_itemsets baskets minSup = some (supportTable baskets minSup) :=
  ⟨level_empty_of_big (by omega), get_frequent_itemsets_eq baskets minSup⟩

/-- Witness for C4 at the literal scenario. -/
theorem spec_C4_witness :
    (demoBaskets ≠ [] ∧ (0 : ℚ) < 3 / 5 ∧ (3 : ℚ) / 5 ≤ 1) ∧
    level demoBaskets (3 / 5) ((allItems demoBaskets).card + 1) = ∅ ∧
    get_frequent_itemsets demoBaskets (3 / 5) =
      some (supportTable demoBaskets (3 / 5)) :=
  ⟨⟨by decide, by norm_num, by norm_num⟩,
    spec_C4 demoBaskets (3 / 5) (by decide) (by norm_num) (by norm_num)⟩

/-- C5 counterexample: the claim asserts that for minSupport outside (0,1]
or an empty basket collection the miner fails with an InvalidInput error and
returns no result; the code performs no validation, and on both inputs the
miner completes normally and returns a (empty) Support Table. -/
theorem spec_C5_counterexample :
    get_frequent_itemsets ([] : List (Finset ℕ)) (1 / 2 : ℚ) = some ∅ ∧
    get_frequent_itemsets ([{1}] : List (Finset ℕ)) (2 : ℚ) = some ∅ := by
  constructor
  · rw [get_frequent_itemsets_eq, supportTable_nil]
  · rw [get_frequent_itemsets_eq, supportTable_empty_of_one_lt (by norm_num)]

/-- C5 (amended): the miner performs no input validation: for every basket
list and every minSupport (valid or not) it terminates and returns a Support
Table; on an empty basket collection it returns the empty table, and for
minSupport > 1 it returns the empty table, instead of raising an error. -/
theorem spec_C5 {α : Type} [DecidableEq α] [LinearOrder α] :
    ∀ (baskets : List (Finset α)) (minSup : ℚ),
      (get_frequent_itemsets baskets minSup).isSome ∧
      (baskets = [] → get_frequent_itemsets baskets minSup = some ∅) ∧
      (1 < minSup → get_frequent_itemsets baskets minSup = some ∅) := by
  intro baskets minSup
  refine ⟨?_, ?_, ?_⟩
  · rw [get_frequent_itemsets_eq]
    rfl
  · rintro rfl
    rw [get_frequent_itemsets_eq, supportTable_nil]
  · intro h
    rw [get_frequent_itemsets_eq, supportTable_empty_of_one_lt h]

/-- Witness for C5 (amended) at an empty basket collection. -/
theorem spec_C5_witness :
    get_frequent_itemsets ([] : List (Finset ℕ)) (1 / 2 : ℚ) = some ∅ :=
  (spec_C5 ([] : List (Finset ℕ)) (1 / 2)).2.1 rfl

/-- C6: the rule generator emits a rule with antecedent `lhs` and consequent
`rhs` exactly when `rhs` is a single item `r` of some table key of size ≥ 2
whose removal leaves `lhs`, `lhs` is itself a table key, and the confidence
`val (itemset) / val (lhs)` reaches minConfidence; a candidate whose
antecedent is missing from the table is skipped silently (no rule for it, and
the generator is a total function, so no error is raised). -/
theorem spec_C6 {α : Type} [DecidableEq α] (keys : Finset (Finset α))
    (val : Finset α → ℚ) (minConf : ℚ) (lhs rhs : Finset α) :
    (∃ sv c, (lhs, rhs, sv, c) ∈ generate_rules keys val minConf) ↔
      ∃ r, rhs = {r} ∧ r ∉ lhs ∧ insert r lhs ∈ keys ∧ 2 ≤ (insert r lhs).card ∧
        lhs ∈ keys ∧ minConf ≤ val (insert r lhs) / val lhs := by
  constructor
  · rintro ⟨sv, c, hmem⟩
    obtain ⟨itemset, hkeys, hcard, r, hr, hlhsk, hconf, heq⟩ :=
      mem_generate_rules.mp hmem
    simp only [Prod.mk.injEq] at heq
    obtain ⟨h1, h2, h3, h4⟩ := heq
    subst h1
    subst h2
    refine ⟨r, rfl, Finset.not_mem_erase r itemset, ?_, ?_, hlhsk, ?_⟩
    · rw [Finset.insert_erase hr]
      exact hkeys
    · rw [Finset.insert_erase hr]
      exact hcard
    · rw [Finset.insert_erase hr]
      exact hconf
  · rintro ⟨r, rfl, hrl, hik, hic, hlk, hconf⟩
    refine ⟨val (insert r lhs), val (insert r lhs) / val lhs,
      mem_generate_rules.mpr
        ⟨insert r lhs, hik, hic, r, Finset.mem_insert_self r lhs, ?_, ?_, ?_⟩⟩
    · rw [Finset.erase_insert hrl]
      exact hlk
    · rw [Finset.erase_insert hrl]
      exact hconf
    · rw [Finset.erase_insert hrl]

/-- C7: every rule emitted from the miner's Support Table satisfies
support(antecedent ∪ consequent) ≤ support(antecedent), and its recorded
confidence is at most 1. -/
theorem spec_C7 {α : Type} [DecidableEq α] [LinearOrder α]
    (baskets : List (Finset α)) (minSup minConf : ℚ) (hne : baskets ≠ [])
    (h0 : 0 < minSup) :
    ∀ lhs rhs sv c, (lhs, rhs, sv, c) ∈
        generate_rules (supportTable baskets minSup) (support baskets) minConf →
      support baskets (lhs ∪ rhs) ≤ support baskets lhs ∧ c ≤ 1 := by
  intro lhs rhs sv c hmem
  obtain ⟨itemset, hkeys, hcard, r, hr, hlhsk, hconf, heq⟩ :=
    mem_generate_rules.mp hmem
  simp only [Prod.mk.injEq] at heq
  obtain ⟨h1, h2, h3, h4⟩ := heq
  subst h1
  subst h2
  subst h4
  have hins : itemset.erase r ∪ {r} = itemset := by
    rw [Finset.union_comm, ← Finset.insert_eq, Finset.insert_erase hr]
  constructor
  · rw [hins]
    exact support_mono (Finset.erase_subset r itemset)
  · have hlen : 0 < baskets.length := List.length_pos.mpr hne
    have hcnt : 0 < supportCount baskets (itemset.erase r) :=
      level_count_pos (mem_supportTable.mp hlhsk)
    have hpos : 0 < support baskets (itemset.erase r) := by
      unfold support
      exact div_pos (by exact_mod_cast hcnt) (by exact_mod_cast hlen)
    rw [div_le_one hpos]
    exact support_mono (Finset.erase_subset r itemset)

/-- Witness for C7: the rule `{1} ⇒ {2}` of the literal scenario. -/
theorem spec_C7_witness :
    (demoBaskets ≠ [] ∧ (0 : ℚ) < 3 / 5 ∧
      (({1} : Finset ℕ), ({2} : Finset ℕ), support demoBaskets {1, 2},
          support demoBaskets {1, 2} / support demoBaskets {1}) ∈
        generate_rules (supportTable demoBaskets (3 / 5)) (support demoBaskets)
          (7 / 10)) ∧
    support demoBaskets ({1} ∪ {2}) ≤ support demoBaskets {1} ∧
      support demoBaskets {1, 2} / support demoBaskets {1} ≤ 1 := by
  have he : ({1, 2} : Finset ℕ).erase 2 = {1} := by decide
  have hmem : (({1} : Finset ℕ), ({2} : Finset ℕ), support demoBaskets {1, 2},
      support demoBaskets {1, 2} / support demoBaskets {1}) ∈
        generate_rules (supportTable demoBaskets (3 / 5)) (support demoBaskets)
          (7 / 10) := by
    refine (@mem_generate_rules ℕ instDecidableEqNat
        (supportTable demoBaskets (3 / 5)) (support demoBaskets) (7 / 10) _).mpr
      ⟨{1, 2}, demo_tmem12, by decide, 2, by decide, ?_, ?_, ?_⟩
    · rw [he]
      exact demo_tmem1
    · rw [he, demo_support_eq (show supportCount demoBaskets {1, 2} = 3 by decide),
        demo_support_eq (show supportCount demoBaskets {1} = 4 by decide)]
      norm_num
    · rw [he]
  exact ⟨⟨by decide, by norm_num, hmem⟩,
    @spec_C7 ℕ instDecidableEqNat Nat.instLinearOrder demoBaskets (3 / 5) (7 / 10)
      (by decide) (by norm_num) {1} {2} (support demoBaskets {1, 2})
      (support demoBaskets {1, 2} / support demoBaskets {1}) hmem⟩

/-- C8: the miner is a pure function of its arguments (running it twice on the
same inputs trivially gives the same table), and both the Support Table and
the generated rule collection are invariant under permuting the basket list. -/
theorem spec_C8 {α : Type} [DecidableEq α] [LinearOrder α]
    (baskets baskets' : List (Finset α)) (minSup minConf : ℚ)
    (h : baskets.Perm baskets') :
    supportTable baskets minSup = supportTable baskets' minSup ∧
    (∀ s : Finset α, support baskets s = support baskets' s) ∧
    generate_rules (supportTable baskets minSup) (support baskets) minConf =
      generate_rules (supportTable baskets' minSup) (support baskets') minConf := by
  have ht := supportTable_perm h minSup
  have hv : support baskets = support baskets' := funext fun s => support_perm h s
  exact ⟨ht, fun s => support_perm h s, by rw [ht, hv]⟩

/-- Witness for C8 on a two-basket list and its transposition. -/
theorem spec_C8_witness :
    ([{1}, {2}] : List (Finset ℕ)).Perm [{2}, {1}] ∧
    supportTable ([{1}, {2}] : List (Finset ℕ)) (1 / 2) =
        supportTable ([{2}, {1}] : List (Finset ℕ)) (1 / 2) ∧
      (∀ s : Finset ℕ, support [{1}, {2}] s = support [{2}, {1}] s) ∧
      generate_rules (supportTable ([{1}, {2}] : List (Finset ℕ)) (1 / 2))
          (support [{1}, {2}]) (1 / 2) =
        generate_rules (supportTable ([{2}, {1}] : List (Finset ℕ)) (1 / 2))
          (support [{2}, {1}]) (1 / 2) :=
  ⟨by decide, @spec_C8 ℕ instDecidableEqNat Nat.instLinearOrder [{1}, {2}] [{2}, {1}]
    (1 / 2) (1 / 2) (by decide)⟩

/-- C9 counterexample: the basket list `[{1, 2}, {1}]` contains an item (2)
absent from some basket and its baskets are not all identical, yet mining
with minSupport = 1 yields a non-empty Support Table (item 1 occurs in every
basket, so `{1}` has support 1). -/
theorem spec_C9_counterexample :
    (∃ i ∈ allItems ([{1, 2}, {1}] : List (Finset ℕ)),
      ∃ b ∈ ([{1, 2}, {1}] : List (Finset ℕ)), i ∉ b) ∧
    ¬ (∀ x ∈ ([{1, 2}, {1}] : List (Finset ℕ)),
        ∀ y ∈ ([{1, 2}, {1}] : List (Finset ℕ)), x = y) ∧
    supportTable ([{1, 2}, {1}] : List (Finset ℕ)) (1 : ℚ) ≠ ∅ := by
  refine ⟨by decide, by decide, ?_⟩
  intro h
  have hall := supportTable_one_empty_iff.mp h
  exact absurd hall (by decide)

/-- C9 (amended): mining with minSupport = 1 yields an empty Support Table if
and only if every item occurring in some basket is absent from at least one
basket (equivalently, no item is common to all baskets); that some item is
absent from some basket while the baskets are not all identical does not
suffice. -/
theorem spec_C9 {α : Type} [DecidableEq α] [LinearOrder α]
    (baskets : List (Finset α)) :
    supportTable baskets (1 : ℚ) = ∅ ↔
      ∀ i ∈ allItems baskets, ∃ b ∈ baskets, i ∉ b :=
  supportTable_one_empty_iff

/-- C10: for a non-empty basket list and minSupport in (0,1], every itemset
in the Support Table is contained in at least one basket and has support at
least 1/totalBaskets (hence positive), and every antecedent the rule
generator divides by (an erase of a table key that is itself a table key) has
non-zero support, so the confidence division never divides by zero. -/
theorem spec_C10 {α : Type} [DecidableEq α] [LinearOrder α]
    (baskets : List (Finset α)) (minSup : ℚ) (hne : baskets ≠ [])
    (h0 : 0 < minSup) (h1 : minSup ≤ 1) :
    ∀ s ∈ supportTable baskets minSup,
      (∃ b ∈ baskets, s ⊆ b) ∧
      1 / (baskets.length : ℚ) ≤ support baskets s ∧
      0 < support baskets s ∧
      ∀ r ∈ s, s.erase r ∈ supportTable baskets minSup →
        support baskets (s.erase r) ≠ 0 := by
  intro s hs
  have hcnt : 0 < supportCount baskets s := level_count_pos (mem_supportTable.mp hs)
  have hlen : 0 < baskets.length := List.length_pos.mpr hne
  have hineq : 1 / (baskets.length : ℚ) ≤ support baskets s := by
    unfold support
    exact div_le_div_of_nonneg_right (by exact_mod_cast hcnt) (by positivity)
  have hpos : 0 < support baskets s := by
    unfold support
    exact div_pos (by exact_mod_cast hcnt) (by exact_mod_cast hlen)
  refine ⟨supportCount_pos_iff.mp hcnt, hineq, hpos, ?_⟩
  intro r _ herase
  have hc : 0 < supportCount baskets (s.erase r) :=
    level_count_pos (mem_supportTable.mp herase)
  have : 0 < support baskets (s.erase r) := by
    unfold support
    exact div_pos (by exact_mod_cast hc) (by exact_mod_cast hlen)
  exact ne_of_gt this

/-- Witness for C10 at the table entry `{1}` of the literal scenario. -/
theorem spec_C10_witness :
    (demoBaskets ≠ [] ∧ (0 : ℚ) < 3 / 5 ∧ (3 : ℚ) / 5 ≤ 1 ∧
      ({1} : Finset ℕ) ∈ supportTable demoBaskets (3 / 5)) ∧
    ((∃ b ∈ demoBaskets, ({1} : Finset ℕ) ⊆ b) ∧
      1 / (demoBaskets.length : ℚ) ≤ support demoBaskets {1} ∧
      0 < support demoBaskets {1} ∧
      ∀ r ∈ ({1} : Finset ℕ),
        ({1} : Finset ℕ).erase r ∈ supportTable demoBaskets (3 / 5) →
          support demoBaskets (({1} : Finset ℕ).erase r) ≠ 0) :=
  ⟨⟨by decide, by norm_num, by norm_num, demo_tmem1⟩,
    @spec_C10 ℕ instDecidableEqNat Nat.instLinearOrder demoBaskets (3 / 5)
      (by decide) (by norm_num) (by norm_num) {1} demo_tmem1⟩

end Apriori
